import Mathlib

/-!
# Verification of the table-backed dataset layer

Shallow embedding of `src/data_prep_utils/dataset.py`:

* `ImageWithPandas` — the table-backed classification dataset,
* `ImageBboxWithPandas` — the table-backed detection dataset and its
  `split_with_count` class-method factory,
* `DataLoaderChain` — the randomized multi-source stream merger.

Conventions used throughout the embedding:

* Python exceptions are modelled by the `PyError` type; fallible code
  returns `Except PyError _`.
* A pandas `DataFrame` is modelled as a `List` of rows; a row is a
  structure whose fields are the distinguished columns the code reads
  (`label_id`, `label_target`, and for detection the four bbox columns).
  The distinguished column *names* are configuration, so the embedding
  fixes the schema instead of carrying the name strings around.
* Python/numpy floats (the bbox coordinates) are modelled by `PFloat`:
  IEEE-754 binary64 values — NaN, ±infinity, or a finite value carried as
  the exact rational it represents — with addition and subtraction
  correctly rounded (round-to-nearest, ties-to-even, overflow to
  ±infinity) and NaN propagating as in the `boxes != boxes` test of the
  source.
* `os.path.expanduser` needs the HOME environment value, which is passed
  explicitly as a `home` argument (the `~user` form, which needs the
  passwd database, is not modelled; paths not starting with `~` are
  returned unchanged exactly as in CPython).
* `random.randrange(n)` draws are modelled by an arbitrary choice
  sequence `r : Nat → Nat`, the draw at step `k` being `r k % n`; every
  sequence of in-range draws is realised by some `r`.  `randrange(0)`
  raises `ValueError`, which is modelled explicitly.
-/

/-- Python exception kinds raised by the code under verification. -/
inductive PyError where
  | attributeError
  | assertionError
  | valueError
  | keyError
  | typeError
  | indexError
  | runtimeError
  | notImplementedError
deriving DecidableEq, Repr

/-- Python/numpy floats as used for bbox coordinates: IEEE-754 binary64
values — NaN, +infinity, -infinity, or a finite value carried as the exact
rational it represents. -/
inductive PFloat where
  | nan
  | pinf
  | ninf
  | val (q : ℚ)
deriving DecidableEq, Repr

/-- Exact rational addition by the textbook cross-multiplication formula
(`Rat.add_def'`).  The library's `Rat.add` is `@[irreducible]`, which would
keep concrete witnesses from evaluating; this formulation computes the same
value. -/
def qAdd (a b : ℚ) : ℚ := mkRat (a.num * b.den + b.num * a.den) (a.den * b.den)

/-- Exact rational subtraction by cross multiplication (`Rat.sub_def'`). -/
def qSub (a b : ℚ) : ℚ := mkRat (a.num * b.den - b.num * a.den) (a.den * b.den)

/-- Exact rational negation. -/
def qNeg (a : ℚ) : ℚ := mkRat (-a.num) a.den

/-- Exact division of a rational by a positive rational. -/
def qDivPos (a b : ℚ) : ℚ := mkRat (a.num * (b.den : Int)) (a.den * b.num.toNat)

/-- Exact product of an integer and a rational. -/
def qMulInt (n : Int) (b : ℚ) : ℚ := mkRat (n * b.num) b.den

/-- 2^e as an exact rational, for an integer exponent. -/
def pow2 (e : Int) : ℚ :=
  if 0 ≤ e then mkRat (Int.ofNat (2 ^ e.toNat)) 1
  else mkRat 1 (2 ^ (-e).toNat)

/-- 2^1024, the smallest positive magnitude that is no longer finite in
binary64 (written as a literal so concrete evaluation never has to expand
the power). -/
def f64MaxExcl : ℚ := mkRat 179769313486231590772930519078902473361797697894230657273430081157732675805500963132708477322407536021120113879871393357658789768814416622492847430639474124377767893424865485276302219601246094119453082952085005768838150682342462881473913110540827237163350510684586298239947245938479716304835356329624224137216 1

/-- Smallest e above the start with `2^(e+1) > m`: the upward half of the
floor-log2 search.  The fuel bounds the walk; 1100 steps cover every
magnitude below the binary64 overflow threshold, the only range the
caller feeds in. -/
def findEUp (m : ℚ) : Nat → Int → Int
  | 0, e => e
  | fuel + 1, e => if pow2 (e + 1) ≤ m then findEUp m fuel (e + 1) else e

/-- Downward half of the floor-log2 search, for magnitudes below 1.  If
the fuel runs out the result is below -1022 and the subnormal clamp in
`roundF64Pos` takes over, so the cap never changes a rounding result. -/
def findEDown (m : ℚ) : Nat → Int → Int
  | 0, e => e
  | fuel + 1, e => if m < pow2 e then findEDown m fuel (e - 1) else e

/-- Floor of log2 of a positive rational (within the range relevant to
binary64, see `findEUp`/`findEDown`). -/
def ilog2 (m : ℚ) : Int :=
  if 1 ≤ m then findEUp m 1100 0 else findEDown m 1100 0

/-- Floor of a nonnegative rational, as integer division of the numerator
by the denominator. -/
def ratFloorPos (q : ℚ) : Int := q.num / (q.den : Int)

/-- Round a nonnegative rational to the nearest integer, ties to even —
the IEEE-754 default rounding direction. -/
def roundTiesEven (n : ℚ) : Int :=
  let f : Int := ratFloorPos n
  let r : ℚ := qSub n (mkRat f 1)
  if r < mkRat 1 2 then f
  else if mkRat 1 2 < r then f + 1
  else if f % 2 = 0 then f else f + 1

/-- Round a positive rational to the nearest binary64 value
(round-to-nearest, ties-to-even): scale by the unit in the last place of
the value's binade (clamped at the subnormal range), round the scaled
value to an integer, and overflow to +infinity at 2^1024. -/
def roundF64Pos (m : ℚ) : PFloat :=
  if f64MaxExcl ≤ m then .pinf
  else
    let e : Int := max (ilog2 m) (-1022)
    let ulp : ℚ := pow2 (e - 52)
    let res : ℚ := qMulInt (roundTiesEven (qDivPos m ulp)) ulp
    if f64MaxExcl ≤ res then .pinf else .val res

/-- Round an arbitrary exact rational to the nearest binary64 value.
Rounding is sign-symmetric in IEEE-754, so negatives go through the
positive case. -/
def roundF64 (q : ℚ) : PFloat :=
  if q = 0 then .val 0
  else if 0 < q then roundF64Pos q
  else
    match roundF64Pos (qNeg q) with
    | .val m => .val (qNeg m)
    | .pinf => .ninf
    | x => x

/-- binary64 addition: the exact sum, correctly rounded; NaN propagates
and opposite infinities give NaN, as in IEEE-754 (and numpy float64). -/
def PFloat.add : PFloat → PFloat → PFloat
  | .nan, _ => .nan
  | _, .nan => .nan
  | .pinf, .ninf => .nan
  | .ninf, .pinf => .nan
  | .pinf, _ => .pinf
  | _, .pinf => .pinf
  | .ninf, _ => .ninf
  | _, .ninf => .ninf
  | .val a, .val b => roundF64 (qAdd a b)

/-- binary64 subtraction: the exact difference, correctly rounded; NaN
propagates and equal infinities give NaN. -/
def PFloat.sub : PFloat → PFloat → PFloat
  | .nan, _ => .nan
  | _, .nan => .nan
  | .pinf, .pinf => .nan
  | .ninf, .ninf => .nan
  | .pinf, _ => .pinf
  | .ninf, _ => .ninf
  | _, .pinf => .ninf
  | _, .ninf => .pinf
  | .val a, .val b => roundF64 (qSub a b)

/-- The self-inequality NaN test: `x != x` on IEEE floats is true exactly
for NaN (infinities compare equal to themselves). -/
def PFloat.isNaN : PFloat → Bool
  | .nan => true
  | _ => false

/-- Python `s.startswith(pre)`, computed on the underlying character
lists (the byte-indexed `String.startsWith` does not reduce in the
kernel, so the embedding works on `String.data` throughout). -/
def strStartsWith (s pre : String) : Bool :=
  pre.data.isPrefixOf s.data

/-- Python `s.endswith(c)` for a one-character suffix, on character
lists. -/
def strEndsWithChar (s : String) (c : Char) : Bool :=
  s.data.getLast? = some c

/-- `assert extension.startswith('.') or extension is None` (lines 106 and
195 of `dataset.py`).  Python evaluates `extension.startswith('.')` first,
so `extension = None` raises `AttributeError` before the `is None` test is
ever reached; a string not starting with `'.'` fails the assert with
`AssertionError`. -/
def extCheck : Option String → Except PyError Unit
  | none => .error .attributeError
  | some s => if strStartsWith s "." then .ok () else .error .assertionError

/-- Python `a or b` on strings: `a` if non-empty, else `b`. -/
def pyOr (a b : String) : String := if a = "" then b else a

/-- `os.path.join` for two POSIX arguments: an absolute second argument
discards the first; otherwise a single separator is inserted unless the
first argument is empty or already ends in one. -/
def posixJoin (a b : String) : String :=
  if strStartsWith b "/" then b
  else if a = "" || strEndsWithChar a '/' then a ++ b
  else a ++ "/" ++ b

/-- `os.path.expanduser` with the HOME value passed explicitly.  Only the
bare-`~` forms are modelled (the `~user` form needs the passwd database
and never occurs in this repository). -/
def expanduser (home p : String) : String :=
  if p = "~" then home
  else if strStartsWith p "~/" then String.mk (home.data ++ p.data.drop 1)
  else p

/-- Path resolution of one id value (lines 109–113 / 198–202): with a root,
`os.path.join(root, x + extension or '')`; with only an extension,
`x + extension`.  `x + None` is a `TypeError` (these branches are
unreachable behind `extCheck`, which already rejects `None`, but are kept
faithful to the expression the code would evaluate). -/
def resolveOne (root ext : Option String) (x : String) : Except PyError String :=
  match root, ext with
  | some r, some e => .ok (posixJoin r (pyOr (x ++ e) ""))
  | some _, none => .error .typeError
  | none, some e => .ok (x ++ e)
  | none, none => .error .typeError

/-- `pandas.unique` / `drop_duplicates`: the first occurrence of every
value, in order of first appearance (structurally recursive: later
duplicates of the head are filtered out of the deduplicated tail). -/
def uniqueFirst {α : Type} [DecidableEq α] : List α → List α
  | [] => []
  | a :: l => a :: (uniqueFirst l).filter (fun b => ¬ b = a)

/-- Python `<=` on strings: lexicographic comparison of the character
(code-point) sequences.  Expressed on `String.data` so that it both
matches CPython's definition and evaluates in the kernel. -/
def strDataLe (a b : String) : Prop := a.data ≤ b.data

/-- Python `<` on strings: strict lexicographic comparison. -/
def strDataLt (a b : String) : Prop := a.data < b.data

instance : DecidableRel strDataLe :=
  fun a b => (inferInstance : Decidable (a.data ≤ b.data))

instance : DecidableRel strDataLt :=
  fun a b => (inferInstance : Decidable (a.data < b.data))

instance : IsTotal String strDataLe := ⟨fun a b => le_total a.data b.data⟩

instance : IsTrans String strDataLe := ⟨fun _ _ _ => le_trans⟩

instance : IsAntisymm String strDataLe :=
  ⟨fun a b h1 h2 => by
    cases a; cases b; exact congrArg String.mk (le_antisymm h1 h2)⟩

/-- `sorted(...)` on the deduplicated target column: lexicographic sort of
the distinct values (`classes = sorted(samples[label_target].unique())`,
lines 115 / 204). -/
def sortedUnique (l : List String) : List String :=
  (uniqueFirst l).insertionSort strDataLe

/-- `{cls_name: i for i, cls_name in enumerate(classes)}` with the running
index made explicit. -/
def derivedIdxFrom (k : Nat) : List String → List (String × Nat)
  | [] => []
  | c :: cs => (c, k) :: derivedIdxFrom (k + 1) cs

/-- `{cls_name: i for i, cls_name in enumerate(classes)}`
(lines 117 / 206). -/
def derivedIdx (classes : List String) : List (String × Nat) :=
  derivedIdxFrom 0 classes

/-- Python dict subscription `class_to_idx[x]`: `KeyError` when absent. -/
def dictGet (d : List (String × Nat)) (k : String) : Except PyError Nat :=
  match d.lookup k with
  | some v => .ok v
  | none => .error .keyError

/-- One row of the classification table: the two distinguished columns
`label_id` and `label_target`. -/
structure ClsRow where
  id : String
  target : String
deriving DecidableEq, Repr

/-- The classification dataset state after `ImageWithPandas.__init__`:
`samples` holds (resolved path, class index) rows after deduplication. -/
structure ImageWithPandas where
  samples : List (String × Nat)
  classes : List String
  class_to_idx : List (String × Nat)
  num_classes : Nat
deriving DecidableEq, Repr

/-- Element-wise fallible map, used for the pandas `Series.map` calls: the
first raised exception aborts the whole column operation. -/
def mapE {α β : Type} (f : α → Except PyError β) : List α → Except PyError (List β)
  | [] => .ok []
  | a :: l => do
    let b ← f a
    let bs ← mapE f l
    pure (b :: bs)

/-- The id-column resolution pass of `__init__` (lines 107–113): expand the
user in the root, and rewrite the id column when a root or an extension is
present. -/
def resolveClsTable (home : String) (root ext : Option String) (df : List ClsRow) :
    Except PyError (List ClsRow) :=
  let root' := root.map (expanduser home)
  if root.isSome || ext.isSome then
    mapE (fun row => do
      let rid ← resolveOne root' ext row.id
      pure { row with id := rid }) df
  else
    pure df

/-- The (resolved path, class index) pairs before deduplication: the
state of the `samples` frame after line 118 of `__init__`. -/
def mappedPairs (home : String) (df : List ClsRow) (root ext : Option String)
    (classToIdx : Option (List (String × Nat))) :
    Except PyError (List (String × Nat)) := do
  let resolved ← resolveClsTable home root ext df
  let classes := sortedUnique (resolved.map (·.target))
  let c2i := classToIdx.getD (derivedIdx classes)
  mapE (fun row => do
    let t ← dictGet c2i row.target
    pure (row.id, t)) resolved

/-- `ImageWithPandas.__init__` (lines 81–126): extension assert, path
resolution, class-index derivation or adoption, target mapping,
deduplication, and the stored attributes. -/
def ImageWithPandas.init (home : String) (df : List ClsRow) (root ext : Option String)
    (classToIdx : Option (List (String × Nat))) : Except PyError ImageWithPandas := do
  extCheck ext
  let resolved ← resolveClsTable home root ext df
  let classes := sortedUnique (resolved.map (·.target))
  let c2i := classToIdx.getD (derivedIdx classes)
  let mapped ← mapE (fun row => do
    let t ← dictGet c2i row.target
    pure (row.id, t)) resolved
  pure ⟨uniqueFirst mapped, classes, c2i, c2i.length⟩

/-- `ImageWithPandas.get_labels` (lines 128–129). -/
def ImageWithPandas.get_labels (d : ImageWithPandas) : List Nat :=
  d.samples.map (·.2)

/-- `ImageWithPandas.__len__` (lines 131–132). -/
def ImageWithPandas.len (d : ImageWithPandas) : Nat :=
  d.samples.length

/-- Follows the spec's words for the claim-C2 comparison only: the
"number of distinct (id, target) pairs after path resolution" — the
(resolved id, raw target) pairs, deduplicated, before any class-index
mapping. -/
def specDistinctPairs (home : String) (df : List ClsRow) (root ext : Option String) :
    Except PyError Nat := do
  let resolved ← resolveClsTable home root ext df
  pure (uniqueFirst (resolved.map fun r => (r.id, r.target))).length

/-- One row of the detection table: the distinguished columns `label_id`,
`label_target` and the four `label_bbox` columns (x, y, w, h).  The
`assert len(self.label_bbox) == 4` of line 191 is absorbed into the
schema, which carries exactly four box fields. -/
structure DetRow where
  id : String
  target : String
  x : PFloat
  y : PFloat
  w : PFloat
  h : PFloat
deriving DecidableEq, Repr

/-- A detection-table row after `__init__`: resolved id and mapped class
index, box fields unchanged. -/
structure DetSampleRow where
  id : String
  target : Nat
  x : PFloat
  y : PFloat
  w : PFloat
  h : PFloat
deriving DecidableEq, Repr

/-- The detection dataset state after `ImageBboxWithPandas.__init__`. -/
structure ImageBboxWithPandas where
  samples : List DetSampleRow
  ids : List String
  class_to_idx : List (String × Nat)
  num_classes : Nat
deriving DecidableEq, Repr

/-- The id-column resolution pass of `ImageBboxWithPandas.__init__`
(lines 196–202), identical to the classification one. -/
def resolveDetTable (home : String) (root ext : Option String) (df : List DetRow) :
    Except PyError (List DetRow) :=
  let root' := root.map (expanduser home)
  if root.isSome || ext.isSome then
    mapE (fun row => do
      let rid ← resolveOne root' ext row.id
      pure { row with id := rid }) df
  else
    pure df

/-- `ImageBboxWithPandas.__init__` (lines 172–213): extension assert, path
resolution, class-index derivation or adoption, target mapping (rows are
NOT deduplicated), and the deduplicated id list in first-seen order. -/
def ImageBboxWithPandas.init (home : String) (df : List DetRow) (root ext : Option String)
    (classToIdx : Option (List (String × Nat))) : Except PyError ImageBboxWithPandas := do
  extCheck ext
  let resolved ← resolveDetTable home root ext df
  let classes := sortedUnique (resolved.map (·.target))
  let c2i := classToIdx.getD (derivedIdx classes)
  let samples ← mapE (fun row => do
    let t ← dictGet c2i row.target
    pure (DetSampleRow.mk row.id t row.x row.y row.w row.h)) resolved
  pure ⟨samples, uniqueFirst (samples.map (·.id)), c2i, c2i.length⟩

/-- `ImageBboxWithPandas.__len__` (lines 235–236). -/
def ImageBboxWithPandas.len (d : ImageBboxWithPandas) : Nat :=
  d.ids.length

/-- A converted box, `(x0, y0, x1, y1)`. -/
structure Box4 where
  x0 : PFloat
  y0 : PFloat
  x1 : PFloat
  y1 : PFloat
deriving DecidableEq, Repr

/-- The box-encoding conversion of lines 246–248: `boxes[:, 2] += boxes[:, 0]`
and `boxes[:, 3] += boxes[:, 1]`, i.e. (x, y, w, h) ↦ (x, y, x+w, y+h). -/
def convBox (r : DetSampleRow) : Box4 :=
  ⟨r.x, r.y, r.x.add r.w, r.y.add r.h⟩

/-- The stacked converted box array of one sample group. -/
def convertBoxes (rows : List DetSampleRow) : List Box4 :=
  rows.map convBox

/-- Whether a converted box has a NaN coordinate. -/
def Box4.hasNaN (b : Box4) : Bool :=
  b.x0.isNaN || b.y0.isNaN || b.x1.isNaN || b.y1.isNaN

/-- `(boxes != boxes).any()` (line 250): Python float self-inequality
holds exactly at NaN entries. -/
def anyNaN (bs : List Box4) : Bool :=
  bs.any Box4.hasNaN

/-- The `{'image': ..., 'bboxes': ..., 'labels': ...}` dict handed to the
transform capability. -/
structure DetPack (Img : Type) where
  image : Img
  bboxes : List Box4
  labels : List Nat
deriving DecidableEq, Repr

/-- The box tensor of the returned sample: either
`torch.stack([torch.tensor(np.zeros((0, 4)))] * n)` — a stack of `n` empty
(0×4) placeholders, carrying no genuine box — or `torch.tensor` of the
actual box list (lines 264–267). -/
inductive BoxOut where
  | emptyStack (n : Nat)
  | boxes (bs : List Box4)
deriving DecidableEq, Repr

/-- The structured record returned by `__getitem__` (line 269). -/
structure DetOut (Img : Type) where
  image : Img
  labels : List Nat
  boxes : BoxOut
deriving DecidableEq, Repr

/-- `ImageBboxWithPandas.__getitem__` (lines 238–271): group lookup by
resolved id, box conversion, the NaN-poisoning discard, the optional
transform capability, and the empty-box placeholder packaging.
`torch.stack` of an empty list (possible only if the transform returns
zero labels together with zero boxes) raises `RuntimeError`. -/
def ImageBboxWithPandas.getitem {Img : Type} (loader : String → Img)
    (tf : Option (DetPack Img → DetPack Img))
    (d : ImageBboxWithPandas) (index : Nat) : Except PyError (DetOut Img) :=
  match d.ids.get? index with
  | none => .error .indexError
  | some image_id =>
    let rows := d.samples.filter (fun r => r.id = image_id)
    let image := loader image_id
    let labels := rows.map (·.target)
    let boxes := convertBoxes rows
    let boxes := if anyNaN boxes then [] else boxes
    let sample : DetPack Img := ⟨image, boxes, labels⟩
    let sample : DetPack Img := match tf with
      | some t => t sample
      | none => sample
    if sample.bboxes.length = 0 then
      if sample.labels.length = 0 then .error .runtimeError
      else .ok ⟨sample.image, sample.labels, .emptyStack sample.labels.length⟩
    else .ok ⟨sample.image, sample.labels, .boxes sample.bboxes⟩

/-- The per-id row count of the `groupby(label_id).size()` frame: after the
inner merge of lines 222–229, every row carries the count of rows sharing
its id. -/
def countOf (df : List DetRow) (i : String) : Nat :=
  (df.filter (fun r => r.id = i)).length

/-- `ImageBboxWithPandas.split_with_count` (lines 215–233): one dataset per
distinct observed count value (in first-seen order of the merged frame,
which preserves the left frame's row order), each constructed from the
rows whose id has exactly that count.  The extra `'count'` column of the
merged frame is never read by the constructed datasets and is dropped by
the row schema. -/
def splitWithCount (home : String) (df : List DetRow) (root ext : Option String)
    (classToIdx : Option (List (String × Nat))) :
    Except PyError (List ImageBboxWithPandas) :=
  mapE
    (fun c => ImageBboxWithPandas.init home (df.filter (fun r => countOf df r.id = c))
      root ext classToIdx)
    (uniqueFirst (df.map (fun r => countOf df r.id)))

/-- A stream-merger source: a finite iterable with a declared length
(`len(loader)`), as required by `DataLoaderChain`.  The declared length is
not forced to match the number of items the source actually yields. -/
structure Source (α : Type) where
  declaredLen : Nat
  items : List α
deriving DecidableEq, Repr

/-- `DataLoaderChain` state after `__init__`: the fixed tuple of sources
and the length computed once by the `loaders` setter
(`self.__length = sum((map(len, value)))`, line 336).  The setter's
tuple-type check is absorbed by the typing of `loaders`. -/
structure DataLoaderChain (α : Type) where
  loaders : List (Source α)
  length : Nat
deriving DecidableEq, Repr

/-- `DataLoaderChain.__init__` via the `loaders` setter (lines 320–336). -/
def DataLoaderChain.init {α : Type} (loaders : List (Source α)) : DataLoaderChain α :=
  ⟨loaders, (loaders.map (·.declaredLen)).sum⟩

/-- Total number of items held by a list of live iterators. -/
def totalLen {α : Type} (ls : List (List α)) : Nat := (ls.map List.length).sum

/-- The `__iter__` loop of lines 342–353, from the state where `available`
holds the given iterator suffixes and the loop is about to run
`random.randrange(len_available)`.  The random draw at step `k` is
`r k % len_available` for the arbitrary choice sequence `r`;
`randrange(0)` — reached exactly when `available` is empty on loop entry —
raises `ValueError`.  An exhausted source is popped; the loop returns
normally exactly when the live count reaches zero. -/
def chainIterGo {α : Type} (r : Nat → Nat) (k : Nat) (avail : List (List α)) :
    Except PyError (List α) :=
  if h0 : avail.length = 0 then .error .valueError
  else
    if hcur : (avail.get ⟨r k % avail.length,
        Nat.mod_lt _ (Nat.pos_of_ne_zero h0)⟩).length = 0 then
      if (avail.eraseIdx (r k % avail.length)).length = 0 then .ok []
      else chainIterGo r (k + 1) (avail.eraseIdx (r k % avail.length))
    else
      match chainIterGo r (k + 1)
          (avail.set (r k % avail.length)
            (avail.get ⟨r k % avail.length,
              Nat.mod_lt _ (Nat.pos_of_ne_zero h0)⟩).tail) with
      | .ok ys =>
        .ok ((avail.get ⟨r k % avail.length,
            Nat.mod_lt _ (Nat.pos_of_ne_zero h0)⟩).head
          (fun hnil => hcur (by rw [hnil]; rfl)) :: ys)
      | .error e => .error e
termination_by totalLen avail + avail.length
decreasing_by
  · have hidx : r k % avail.length < avail.length :=
      Nat.mod_lt _ (Nat.pos_of_ne_zero h0)
    have key : ∀ (l : List (List α)) (i : Nat) (h : i < l.length),
        totalLen (l.eraseIdx i) + (l.get ⟨i, h⟩).length = totalLen l := by
      intro l
      induction l with
      | nil => intro i h; simp at h
      | cons a l ih =>
        intro i h
        cases i with
        | zero => simp [totalLen, List.eraseIdx]; omega
        | succ n =>
          have hn : n < l.length := by simpa using h
          have := ih n hn
          simp only [totalLen, List.eraseIdx, List.map_cons, List.sum_cons,
            List.get_cons_succ] at *
          omega
    have h2 := key avail (r k % avail.length) hidx
    rw [hcur] at h2
    have h3 : (avail.eraseIdx (r k % avail.length)).length + 1 = avail.length :=
      List.length_eraseIdx_add_one hidx
    omega
  · have hidx : r k % avail.length < avail.length :=
      Nat.mod_lt _ (Nat.pos_of_ne_zero h0)
    have key : ∀ (l : List (List α)) (i : Nat) (h : i < l.length) (xs : List α),
        totalLen (l.set i xs) + (l.get ⟨i, h⟩).length = totalLen l + xs.length := by
      intro l
      induction l with
      | nil => intro i h; simp at h
      | cons a l ih =>
        intro i h xs
        cases i with
        | zero => simp [totalLen, List.set]; omega
        | succ n =>
          have hn : n < l.length := by simpa using h
          have := ih n hn xs
          simp only [totalLen, List.set, List.map_cons, List.sum_cons,
            List.get_cons_succ] at *
          omega
    have h2 := key avail (r k % avail.length) hidx
      (avail.get ⟨r k % avail.length, hidx⟩).tail
    have h3 : (avail.set (r k % avail.length)
        (avail.get ⟨r k % avail.length, hidx⟩).tail).length = avail.length :=
      List.length_set avail _ _
    have h4 : (avail.get ⟨r k % avail.length, hidx⟩).tail.length
        = (avail.get ⟨r k % avail.length, hidx⟩).length - 1 := List.length_tail _
    omega

/-- One full iteration run of the merger (`__iter__`, lines 342–353),
collecting every yielded item: each source contributes its items, the
declared lengths play no role here. -/
def DataLoaderChain.iterRun {α : Type} (r : Nat → Nat) (c : DataLoaderChain α) :
    Except PyError (List α) :=
  chainIterGo r 0 (c.loaders.map (·.items))

/-- `DataLoaderChain.__len__` (lines 355–356): returns the stored
`length`, with no recomputation. -/
def DataLoaderChain.len {α : Type} (c : DataLoaderChain α) : Nat := c.length

/-- `DataLoaderChain.__getitem__` (lines 358–359): unconditionally raises
`NotImplementedError`; being a pure function of the chain it neither
yields an item nor produces an updated merger state. -/
def DataLoaderChain.getitem {α : Type} (_c : DataLoaderChain α) (_item : Nat) :
    Except PyError α :=
  .error .notImplementedError

/-! ### Concrete inputs used by the witness theorems -/

/-- The exact rational value of the binary64 literal 0.1
(= 3602879701896397 * 2^-55). -/
def f64PointOne : ℚ := mkRat 3602879701896397 (2 ^ 55)

/-- The exact rational value of the binary64 literal 0.2
(= 3602879701896397 * 2^-54). -/
def f64PointTwo : ℚ := mkRat 3602879701896397 (2 ^ 54)

/-- The exact rational value of the binary64 sum 0.1 + 0.2
(= 0.30000000000000004...). -/
def f64PointThree : ℚ := mkRat 5404319552844596 (2 ^ 54)

def dfC2W : List ClsRow := [⟨"p", "a"⟩, ⟨"p", "b"⟩]

def dC2W : ImageWithPandas :=
  (ImageWithPandas.init "" dfC2W none (some ".png") (some [("a", 0), ("b", 0)])).toOption.getD
    ⟨[], [], [], 0⟩

def dfC4a : List ClsRow := [⟨"i1", "b"⟩, ⟨"i2", "a"⟩]

def dfC4b : List ClsRow := [⟨"j", "a"⟩, ⟨"k", "b"⟩, ⟨"l", "a"⟩]

def dC4a : ImageWithPandas :=
  (ImageWithPandas.init "" dfC4a none (some ".png") none).toOption.getD ⟨[], [], [], 0⟩

def dC4b : ImageWithPandas :=
  (ImageWithPandas.init "" dfC4b none (some ".png") none).toOption.getD ⟨[], [], [], 0⟩

def dfC3 : List DetRow :=
  [⟨"im", "opacity", .val 1, .val 1, .val 2, .val 2⟩,
   ⟨"im", "opacity", .nan, .val 1, .val 2, .val 2⟩]

def dC3 : ImageBboxWithPandas :=
  (ImageBboxWithPandas.init "" dfC3 none (some ".png") none).toOption.getD ⟨[], [], [], 0⟩

def dfC5 : List DetRow :=
  [⟨"a", "t", .val 0, .val 0, .val 1, .val 1⟩,
   ⟨"b", "t", .val 0, .val 0, .val 1, .val 1⟩,
   ⟨"c", "t", .val 0, .val 0, .val 1, .val 1⟩,
   ⟨"c", "t", .val 0, .val 1, .val 1, .val 1⟩,
   ⟨"d", "t", .val 0, .val 0, .val 1, .val 1⟩,
   ⟨"d", "t", .val 0, .val 1, .val 1, .val 1⟩,
   ⟨"d", "t", .val 0, .val 2, .val 1, .val 1⟩,
   ⟨"e", "t", .val 0, .val 0, .val 1, .val 1⟩,
   ⟨"e", "t", .val 0, .val 1, .val 1, .val 1⟩,
   ⟨"e", "t", .val 0, .val 2, .val 1, .val 1⟩,
   ⟨"f", "t", .val 0, .val 0, .val 1, .val 1⟩,
   ⟨"f", "t", .val 0, .val 1, .val 1, .val 1⟩]

def dssC5 : List ImageBboxWithPandas :=
  (splitWithCount "" dfC5 none (some ".png") none).toOption.getD []

def loadersC6 : List (Source Nat) :=
  [⟨3, [0, 1, 2]⟩, ⟨5, [3, 4, 5, 6, 7]⟩, ⟨0, []⟩]

def loadersC8 : List (Source Nat) := [⟨3, [10, 11]⟩, ⟨4, []⟩]

/-- C1: the extension precondition, exercised on the three input shapes:
`None`, a non-dotted string, and a dotted string. -/
theorem extCheck_behaviour :
    extCheck none = .error .attributeError ∧
    extCheck (some "png") = .error .assertionError ∧
    extCheck (some ".png") = .ok () ∧
    ImageWithPandas.init "" [⟨"a", "b"⟩] none none none = .error .attributeError := by
  refine ⟨rfl, rfl, rfl, rfl⟩

/-! ### Shared lemmas -/

theorem except_bind_ok {β γ : Type} {e : Except PyError β} {f : β → Except PyError γ} {c : γ}
    (h : e >>= f = .ok c) : ∃ b, e = .ok b ∧ f b = .ok c := by
  cases e with
  | error err => exact absurd h (by simp [Bind.bind, Except.bind])
  | ok b => exact ⟨b, rfl, by simpa [Bind.bind, Except.bind] using h⟩

theorem mem_uniqueFirst {α : Type} [DecidableEq α] (a : α) (l : List α) :
    a ∈ uniqueFirst l ↔ a ∈ l := by
  induction l with
  | nil => simp [uniqueFirst]
  | cons b t ih =>
    rw [uniqueFirst]
    by_cases hab : a = b
    · simp [hab]
    · simp only [List.mem_cons, List.mem_filter, ih]
      simp [hab]

theorem uniqueFirst_nodup {α : Type} [DecidableEq α] (l : List α) :
    (uniqueFirst l).Nodup := by
  induction l with
  | nil => simp [uniqueFirst]
  | cons b t ih =>
    rw [uniqueFirst]
    refine List.nodup_cons.2 ⟨?_, ih.filter _⟩
    intro hmem
    simp [List.mem_filter] at hmem

theorem uniqueFirst_toFinset {α : Type} [DecidableEq α] (l : List α) :
    (uniqueFirst l).toFinset = l.toFinset := by
  ext x
  simp [List.mem_toFinset, mem_uniqueFirst]

theorem uniqueFirst_length {α : Type} [DecidableEq α] (l : List α) :
    (uniqueFirst l).length = l.toFinset.card := by
  rw [← uniqueFirst_toFinset, List.toFinset_card_of_nodup (uniqueFirst_nodup l)]

theorem mapE_ok_iff {α β : Type} (f : α → Except PyError β) :
    ∀ (l : List α) (out : List β),
      mapE f l = .ok out ↔ List.Forall₂ (fun a b => f a = .ok b) l out := by
  intro l
  induction l with
  | nil =>
    intro out
    simp only [mapE, List.forall₂_nil_left_iff]
    constructor
    · intro h; cases h; rfl
    · intro h; rw [h]
  | cons a l ih =>
    intro out
    simp only [List.forall₂_cons_left_iff]
    constructor
    · intro h
      rw [mapE] at h
      obtain ⟨b, hfa, h2⟩ := except_bind_ok h
      obtain ⟨bs, hml, h3⟩ := except_bind_ok h2
      cases h3
      exact ⟨b, bs, hfa, (ih bs).1 hml, rfl⟩
    · rintro ⟨b, bs, hfa, hf2, rfl⟩
      rw [mapE, hfa]
      have : mapE f l = .ok bs := (ih bs).2 hf2
      rw [this]
      rfl

@[simp] theorem except_ok_bind {β γ : Type} (b : β) (f : β → Except PyError γ) :
    (Except.ok b >>= f) = f b := rfl

@[simp] theorem except_map_ok {β γ : Type} (g : β → γ) (b : β) :
    (Except.ok b : Except PyError β).map g = .ok (g b) := rfl

theorem ImageWithPandas_init_elim {home : String} {df : List ClsRow} {root ext : Option String}
    {classToIdx : Option (List (String × Nat))} {d : ImageWithPandas}
    (h : ImageWithPandas.init home df root ext classToIdx = .ok d) :
    ∃ resolved mapped,
      resolveClsTable home root ext df = .ok resolved ∧
      mapE (fun row =>
        dictGet (classToIdx.getD (derivedIdx (sortedUnique (resolved.map (·.target)))))
            row.target >>= fun t =>
          pure (row.id, t)) resolved = .ok mapped ∧
      d = ⟨uniqueFirst mapped, sortedUnique (resolved.map (·.target)),
        classToIdx.getD (derivedIdx (sortedUnique (resolved.map (·.target)))),
        (classToIdx.getD (derivedIdx (sortedUnique (resolved.map (·.target))))).length⟩ := by
  rw [ImageWithPandas.init] at h
  obtain ⟨u, h1, h2⟩ := except_bind_ok h
  obtain ⟨resolved, h3, h4⟩ := except_bind_ok h2
  obtain ⟨mapped, h5, h6⟩ := except_bind_ok h4
  cases h6
  exact ⟨resolved, mapped, h3, h5, rfl⟩

/-- C2 (amended): for every table and optional explicit class-to-index
mapping, the length of a successfully constructed classification dataset
equals the number of distinct (resolved id, class index) pairs — the
deduplication of line 120 runs after the target column has been mapped
through `class_to_idx`, so a non-injective explicit mapping can merge
pairs that differ only in their raw target. -/
theorem dataset_len_eq_distinct_mapped_pairs (home : String) (df : List ClsRow)
    (root ext : Option String) (classToIdx : Option (List (String × Nat)))
    (d : ImageWithPandas)
    (h : ImageWithPandas.init home df root ext classToIdx = .ok d) :
    (mappedPairs home df root ext classToIdx).map (fun mp => mp.toFinset.card) =
      .ok d.len := by
  obtain ⟨resolved, mapped, h3, h5, rfl⟩ := ImageWithPandas_init_elim h
  rw [mappedPairs, h3, except_ok_bind, h5, except_map_ok]
  rw [ImageWithPandas.len]
  rw [uniqueFirst_length]



/-- C2 (witness): the amended theorem applied to a concrete two-row table
whose explicit mapping sends both labels to the same index. -/
theorem dataset_len_eq_distinct_mapped_pairs_witness :
    (mappedPairs "" dfC2W none (some ".png") (some [("a", 0), ("b", 0)])).map
      (fun mp => mp.toFinset.card) = .ok dC2W.len :=
  dataset_len_eq_distinct_mapped_pairs "" dfC2W none (some ".png")
    (some [("a", 0), ("b", 0)]) dC2W rfl

/-- C2 (counterexample): a table with two distinct (id, target) pairs that
resolve to the same id and whose explicit mapping identifies the two
targets: the dataset length is 1, while the number of distinct
(id, target) pairs after path resolution is 2. -/
theorem classification_len_counterexample :
    (ImageWithPandas.init "" [⟨"p", "a"⟩, ⟨"p", "b"⟩] none (some ".png")
        (some [("a", 0), ("b", 0)])).map ImageWithPandas.len = .ok 1 ∧
    specDistinctPairs "" [⟨"p", "a"⟩, ⟨"p", "b"⟩] none (some ".png") = .ok 2 ∧
    (ImageWithPandas.init "" [⟨"p", "a"⟩, ⟨"p", "b"⟩] none (some ".png")
        (some [("a", 0), ("b", 0)])).map ImageWithPandas.len ≠
      specDistinctPairs "" [⟨"p", "a"⟩, ⟨"p", "b"⟩] none (some ".png") := by
  refine ⟨rfl, rfl, fun h => ?_⟩
  have h2 : (Except.ok 1 : Except PyError Nat) = .ok 2 :=
    (show (Except.ok 1 : Except PyError Nat) =
      (ImageWithPandas.init "" [⟨"p", "a"⟩, ⟨"p", "b"⟩] none (some ".png")
        (some [("a", 0), ("b", 0)])).map ImageWithPandas.len from rfl).trans
      (h.trans rfl)
  simp at h2

theorem forall2_map_eq {α β γ : Type} {R : α → β → Prop} {g : β → γ} {m : α → γ}
    (hgm : ∀ a b, R a b → g b = m a) :
    ∀ {l : List α} {out : List β}, List.Forall₂ R l out → out.map g = l.map m := by
  intro l out h
  induction h with
  | nil => rfl
  | cons h1 _ ih => simp only [List.map_cons, hgm _ _ h1, ih]

theorem resolveClsTable_targets {home : String} {root ext : Option String}
    {df out : List ClsRow} (h : resolveClsTable home root ext df = .ok out) :
    out.map (·.target) = df.map (·.target) := by
  rw [resolveClsTable] at h
  split at h
  · have h2 := (mapE_ok_iff _ _ _).1 h
    refine forall2_map_eq (fun a b hab => ?_) h2
    obtain ⟨rid, _, h3⟩ := except_bind_ok hab
    cases h3
    rfl
  · cases h
    rfl

theorem mem_sortedUnique {t : String} {l : List String} :
    t ∈ sortedUnique l ↔ t ∈ l := by
  rw [sortedUnique, (List.perm_insertionSort strDataLe (uniqueFirst l)).mem_iff,
    mem_uniqueFirst]

theorem sortedUnique_nodup (l : List String) : (sortedUnique l).Nodup :=
  (List.perm_insertionSort strDataLe (uniqueFirst l)).nodup_iff.2 (uniqueFirst_nodup l)

theorem sortedUnique_eq {l₁ l₂ : List String}
    (h : ∀ t, t ∈ l₁ ↔ t ∈ l₂) : sortedUnique l₁ = sortedUnique l₂ := by
  have hperm : List.Perm (uniqueFirst l₁) (uniqueFirst l₂) :=
    (List.perm_ext_iff_of_nodup (uniqueFirst_nodup _) (uniqueFirst_nodup _)).2
      (fun a => by rw [mem_uniqueFirst, mem_uniqueFirst]; exact h a)
  exact List.eq_of_perm_of_sorted
    (((List.perm_insertionSort _ _).trans hperm).trans
      (List.perm_insertionSort _ _).symm)
    (List.sorted_insertionSort _ _) (List.sorted_insertionSort _ _)

theorem pairwise_lt_of_le_of_nodup :
    ∀ {cs : List String}, cs.Pairwise strDataLe → cs.Nodup → cs.Pairwise strDataLt := by
  intro cs
  induction cs with
  | nil => intro _ _; exact List.Pairwise.nil
  | cons c cs ih =>
    intro hle hnd
    rcases List.pairwise_cons.1 hle with ⟨hle1, hle2⟩
    rcases List.nodup_cons.1 hnd with ⟨hnd1, hnd2⟩
    refine List.pairwise_cons.2 ⟨?_, ih hle2 hnd2⟩
    intro b hb
    have hne : c ≠ b := fun hcb => hnd1 (hcb ▸ hb)
    have hdne : c.data ≠ b.data := fun hd =>
      hne (by cases c; cases b; exact congrArg String.mk hd)
    exact lt_of_le_of_ne (hle1 b hb) hdne

theorem sortedUnique_pairwise_lt (l : List String) :
    (sortedUnique l).Pairwise strDataLt :=
  pairwise_lt_of_le_of_nodup (List.sorted_insertionSort _ _) (sortedUnique_nodup l)

theorem lookup_derivedIdxFrom :
    ∀ (cs : List String), cs.Pairwise strDataLt → ∀ (k : Nat), ∀ t ∈ cs,
      (derivedIdxFrom k cs).lookup t =
        some (k + (cs.filter (fun s => decide (strDataLt s t))).length) := by
  intro cs
  induction cs with
  | nil => intro _ _ t ht; simp at ht
  | cons c cs ih =>
    intro hs k t ht
    rcases List.pairwise_cons.1 hs with ⟨hcs, hs'⟩
    rw [derivedIdxFrom]
    rcases List.mem_cons.1 ht with rfl | htc
    · have hbeq : (t == t) = true := beq_self_eq_true t
      rw [List.lookup, hbeq]
      have hflt : (List.filter (fun s => decide (strDataLt s t)) (t :: cs)) = [] := by
        rw [List.filter_eq_nil_iff]
        intro s hesm
        rcases List.mem_cons.1 hesm with rfl | hsm
        · simp [strDataLt]
        · have := hcs s hsm
          simp only [decide_eq_true_eq]
          exact fun hlt => absurd (lt_trans this hlt) (lt_irrefl _)
      rw [hflt]
      simp
    · have hct : strDataLt c t := hcs t htc
      have hne : (t == c) = false := by
        rw [beq_eq_false_iff_ne]
        intro hrfl
        exact absurd (hrfl ▸ hct) (lt_irrefl _)
      rw [List.lookup, hne, ih hs' (k + 1) t htc]
      have hcons : List.filter (fun s => decide (strDataLt s t)) (c :: cs)
          = c :: List.filter (fun s => decide (strDataLt s t)) cs := by
        rw [List.filter_cons_of_pos]
        simpa using hct
      rw [hcons, List.length_cons]
      exact congrArg some (by omega)

theorem filter_length_eq_filter_card {cs l : List String}
    {P : String → Prop} [DecidablePred P]
    (hnd : cs.Nodup) (hmem : ∀ x, x ∈ cs ↔ x ∈ l) :
    (cs.filter (fun s => decide (P s))).length = (l.toFinset.filter P).card := by
  rw [← List.toFinset_card_of_nodup (hnd.filter _)]
  congr 1
  ext x
  simp only [List.mem_toFinset, List.mem_filter, Finset.mem_filter,
    decide_eq_true_eq, hmem]

/-- C4: two classification datasets built without an explicit mapping,
from tables with the same set of distinct target values, assign identical
class indices; each distinct label is mapped to its 0-based rank in the
lexicographic sort of the distinct labels (the number of distinct labels
strictly below it), independent of row order. -/
theorem class_to_idx_canonical
    (home₁ home₂ : String) (df₁ df₂ : List ClsRow)
    (root₁ root₂ ext₁ ext₂ : Option String) (d₁ d₂ : ImageWithPandas)
    (h1 : ImageWithPandas.init home₁ df₁ root₁ ext₁ none = .ok d₁)
    (h2 : ImageWithPandas.init home₂ df₂ root₂ ext₂ none = .ok d₂)
    (hsame : (df₁.map (·.target)).toFinset = (df₂.map (·.target)).toFinset) :
    d₁.class_to_idx = d₂.class_to_idx ∧
    ∀ t ∈ df₁.map (·.target),
      d₁.class_to_idx.lookup t =
        some (((df₁.map (·.target)).toFinset.filter (fun s => strDataLt s t)).card) := by
  obtain ⟨res₁, map₁, hr₁, _, rfl⟩ := ImageWithPandas_init_elim h1
  obtain ⟨res₂, map₂, hr₂, _, rfl⟩ := ImageWithPandas_init_elim h2
  have ht₁ := resolveClsTable_targets hr₁
  have ht₂ := resolveClsTable_targets hr₂
  have hmem : ∀ t, t ∈ res₁.map (·.target) ↔ t ∈ res₂.map (·.target) := by
    intro t
    rw [ht₁, ht₂, ← List.mem_toFinset, hsame, List.mem_toFinset]
  constructor
  · dsimp only
    rw [Option.getD_none, Option.getD_none, sortedUnique_eq hmem]
  · intro t ht
    dsimp only
    rw [Option.getD_none, derivedIdx]
    have htcs : t ∈ sortedUnique (res₁.map (·.target)) := by
      rw [mem_sortedUnique, ht₁]; exact ht
    rw [lookup_derivedIdxFrom _ (sortedUnique_pairwise_lt _) 0 t htcs, Nat.zero_add,
      filter_length_eq_filter_card (sortedUnique_nodup _)
        (fun x => by rw [mem_sortedUnique, ht₁])]
    have hfin : (sortedUnique (res₁.map (·.target))).toFinset =
        (df₁.map (·.target)).toFinset := by
      ext x
      simp only [List.mem_toFinset, mem_sortedUnique, ht₁]
    rw [hfin]





/-- C4 (witness): two concrete tables over the label set {a, b}, in
different row orders and with different multiplicities, receive the same
derived class-to-index mapping. -/
theorem class_to_idx_canonical_witness : dC4a.class_to_idx = dC4b.class_to_idx :=
  (class_to_idx_canonical "" "" dfC4a dfC4b none none (some ".png") (some ".png")
    dC4a dC4b rfl rfl (by decide)).1

/-- C3: if the stacked converted box array of a sample group contains any
NaN coordinate, `__getitem__` (with no transform configured) discards the
whole box array: the returned sample carries one label per original row of
the group and its box tensor is a stack of that many empty (0×4)
placeholders — zero genuine boxes. -/
theorem getitem_nan_poisoning {Img : Type} (loader : String → Img)
    (d : ImageBboxWithPandas) (index : Nat) (image_id : String)
    (hid : d.ids.get? index = some image_id)
    (hne : d.samples.filter (fun r => r.id = image_id) ≠ [])
    (hnan : anyNaN (convertBoxes (d.samples.filter (fun r => r.id = image_id))) = true) :
    ImageBboxWithPandas.getitem loader none d index =
      .ok ⟨loader image_id,
        (d.samples.filter (fun r => r.id = image_id)).map (·.target),
        .emptyStack (d.samples.filter (fun r => r.id = image_id)).length⟩ := by
  rw [ImageBboxWithPandas.getitem, hid]
  dsimp only
  rw [if_pos hnan]
  have hlen : ((d.samples.filter (fun r => r.id = image_id)).map
      (fun r => r.target)).length ≠ 0 := by
    rw [List.length_map]
    exact fun h0 => hne (List.length_eq_zero.1 h0)
  rw [if_pos (show ([] : List Box4).length = 0 from rfl), if_neg hlen]
  rw [List.length_map]



/-- C3 (witness): the spec's example group, boxes [[1,1,2,2],[NaN,1,2,2]]:
the sample keeps both labels but stacks two empty placeholders. -/
theorem getitem_nan_poisoning_witness :
    ImageBboxWithPandas.getitem (fun s => s) none dC3 0 =
      .ok ⟨"im.png",
        (dC3.samples.filter (fun r => r.id = "im.png")).map (·.target),
        .emptyStack (dC3.samples.filter (fun r => r.id = "im.png")).length⟩ :=
  getitem_nan_poisoning (fun s => s) dC3 0 "im.png" (by decide) (by decide) (by decide)

theorem qSub_eq (a b : ℚ) : qSub a b = a - b := (Rat.sub_def' a b).symm

/-- C7 (amended): `__getitem__` converts a row's (x, y, w, h) to
(x, y, x ⊕ w, y ⊕ h), where ⊕ is binary64 addition — the second corner,
NOT preserved width/height.  Whenever the two additions are exact and w, h
are themselves unchanged by binary64 rounding — as in the spec's example
(10, 20, 5, 8) ↦ (10, 20, 15, 28) — the inverse float subtraction
(w = x1 ⊖ x0, h = y1 ⊖ y0) recovers the original (x, y, w, h); for general
float rows the recovery can be off by rounding (see the counterexample). -/
theorem box_conversion_roundtrip (i : String) (n : Nat) (x y w h : ℚ)
    (hxw : PFloat.add (.val x) (.val w) = .val (x + w))
    (hyh : PFloat.add (.val y) (.val h) = .val (y + h))
    (hw : roundF64 w = .val w) (hh : roundF64 h = .val h) :
    convBox ⟨i, n, .val x, .val y, .val w, .val h⟩ =
        ⟨.val x, .val y, .val (x + w), .val (y + h)⟩ ∧
    PFloat.sub (.val (x + w)) (.val x) = .val w ∧
    PFloat.sub (.val (y + h)) (.val y) = .val h := by
  refine ⟨?_, ?_, ?_⟩
  · rw [convBox, hxw, hyh]
  · show roundF64 (qSub (x + w) x) = .val w
    rw [qSub_eq]
    have hxx : x + w - x = w := by ring
    rw [hxx, hw]
  · show roundF64 (qSub (y + h) y) = .val h
    rw [qSub_eq]
    have hyy : y + h - y = h := by ring
    rw [hyy, hh]

/-- C7 (witness): the spec's example row (10, 20, 5, 8): both additions
are exact in binary64, conversion yields (10, 20, 15, 28), and the
inverse subtractions recover w = 5 and h = 8. -/
theorem box_conversion_roundtrip_witness :
    convBox ⟨"im", 0, .val 10, .val 20, .val 5, .val 8⟩ =
        ⟨.val 10, .val 20, .val (10 + 5), .val (20 + 8)⟩ ∧
    PFloat.sub (.val (10 + 5)) (.val 10) = .val 5 ∧
    PFloat.sub (.val (20 + 8)) (.val 20) = .val 8 :=
  box_conversion_roundtrip "im" 0 10 20 5 8
    (by rw [show (10 : ℚ) + 5 = 15 by norm_num]; decide)
    (by rw [show (20 : ℚ) + 8 = 28 by norm_num]; decide)
    (by decide) (by decide)

/-- C7 (counterexample): the row (x, y, w, h) = (0.1, 0, 0.2, 0) in
binary64: conversion computes x1 = 0.1 ⊕ 0.2 = 0.30000000000000004, and
the inverse x1 ⊖ x0 = 0.20000000000000004 ≠ 0.2 = w — the round-trip does
not recover the original (x, y, w, h) for every row. -/
theorem box_roundtrip_counterexample :
    (convBox ⟨"im", 0, .val f64PointOne, .val 0, .val f64PointTwo, .val 0⟩).x1 =
      .val f64PointThree ∧
    PFloat.sub (.val f64PointThree) (.val f64PointOne) =
      .val (mkRat 7205759403792795 (2 ^ 55)) ∧
    ¬ PFloat.sub ((convBox ⟨"im", 0, .val f64PointOne, .val 0, .val f64PointTwo,
        .val 0⟩).x1) (.val f64PointOne) = .val f64PointTwo := by
  refine ⟨by decide, by decide, by decide⟩

theorem ImageBboxWithPandas_ids_spec {home : String} {df : List DetRow}
    {root ext : Option String} {cI : Option (List (String × Nat))}
    {d : ImageBboxWithPandas}
    (h : ImageBboxWithPandas.init home df root ext cI = .ok d) :
    d.ids = uniqueFirst (d.samples.map (·.id)) := by
  rw [ImageBboxWithPandas.init] at h
  obtain ⟨u, h1, h2⟩ := except_bind_ok h
  obtain ⟨resolved, h3, h4⟩ := except_bind_ok h2
  obtain ⟨samples, h5, h6⟩ := except_bind_ok h4
  cases h6
  rfl

theorem forall2_get?_some {α β : Type} {R : α → β → Prop} {l : List α} {out : List β}
    (h : List.Forall₂ R l out) :
    ∀ (i : Nat) (a : α), l.get? i = some a → ∃ b, out.get? i = some b ∧ R a b := by
  induction h with
  | nil => intro i a ha; simp at ha
  | cons h1 _ ih =>
    intro i a ha
    cases i with
    | zero =>
      simp only [List.get?_cons_zero, Option.some.injEq] at ha
      exact ⟨_, rfl, ha ▸ h1⟩
    | succ n => exact ih n a ha

theorem forall2_mem_right {α β : Type} {R : α → β → Prop} {l : List α} {out : List β}
    (h : List.Forall₂ R l out) : ∀ b ∈ out, ∃ a ∈ l, R a b := by
  induction h with
  | nil => simp
  | cons h1 _ ih =>
    intro b hb
    rcases List.mem_cons.1 hb with rfl | hb'
    · exact ⟨_, List.mem_cons_self _ _, h1⟩
    · obtain ⟨a, ha, hr⟩ := ih b hb'
      exact ⟨a, List.mem_cons_of_mem _ ha, hr⟩

theorem nodup_filter_eq_one {l : List Nat} {a : Nat}
    (hnd : l.Nodup) (ha : a ∈ l) :
    (l.filter (fun c => a = c)).length = 1 := by
  induction l with
  | nil => simp at ha
  | cons b t ih =>
    rcases List.nodup_cons.1 hnd with ⟨hb, ht⟩
    rcases List.mem_cons.1 ha with rfl | hat
    · rw [List.filter_cons_of_pos (by simp)]
      have hnil : t.filter (fun c => a = c) = [] := by
        rw [List.filter_eq_nil_iff]
        intro c hc
        simp only [decide_eq_true_eq]
        exact fun hac => hb (hac ▸ hc)
      rw [hnil]
      rfl
    · have hab : a ≠ b := fun hrfl => hb (hrfl ▸ hat)
      rw [List.filter_cons_of_neg (by simpa using hab)]
      exact ih ht hat

/-- C5: `split_with_count` returns one detection dataset per distinct
per-id row count (in first-seen order); the i-th instance is constructed
from exactly the rows whose id has the i-th distinct count; every original
row belongs to exactly one such bucket; and every instance's length is the
number of distinct (resolved) ids among its own rows. -/
theorem splitWithCount_spec (home : String) (df : List DetRow) (root ext : Option String)
    (classToIdx : Option (List (String × Nat))) (dss : List ImageBboxWithPandas)
    (h : splitWithCount home df root ext classToIdx = .ok dss) :
    dss.length = (uniqueFirst (df.map (fun r => countOf df r.id))).length ∧
    (∀ (i : Nat) (c : Nat),
      (uniqueFirst (df.map (fun r => countOf df r.id))).get? i = some c →
      ∃ d_, dss.get? i = some d_ ∧
        ImageBboxWithPandas.init home (df.filter (fun r => countOf df r.id = c))
          root ext classToIdx = .ok d_) ∧
    (∀ r ∈ df, ((uniqueFirst (df.map (fun r' => countOf df r'.id))).filter
        (fun c => countOf df r.id = c)).length = 1) ∧
    (∀ d_ ∈ dss, d_.len = (uniqueFirst (d_.samples.map (·.id))).length) := by
  rw [splitWithCount] at h
  have hf := (mapE_ok_iff _ _ _).1 h
  refine ⟨hf.length_eq.symm, ?_, ?_, ?_⟩
  · intro i c hc
    obtain ⟨d_, hd1, hd2⟩ := forall2_get?_some hf i c hc
    exact ⟨d_, hd1, hd2⟩
  · intro r hr
    refine nodup_filter_eq_one (uniqueFirst_nodup _) ?_
    rw [mem_uniqueFirst]
    exact List.mem_map_of_mem _ hr
  · intro d_ hd
    obtain ⟨c, _, hok⟩ := forall2_mem_right hf d_ hd
    rw [ImageBboxWithPandas.len, ImageBboxWithPandas_ids_spec hok]



/-- C5 (witness): a table whose six ids have box-counts 1, 1, 2, 3, 3, 2:
the split succeeds and returns one instance per distinct count. -/
theorem splitWithCount_spec_witness :
    dssC5.length = (uniqueFirst (dfC5.map (fun r => countOf dfC5 r.id))).length :=
  (splitWithCount_spec "" dfC5 none (some ".png") none dssC5 rfl).1

theorem totalLen_eraseIdx {α : Type} :
    ∀ (l : List (List α)) (i : Nat) (h : i < l.length),
      totalLen (l.eraseIdx i) + (l.get ⟨i, h⟩).length = totalLen l := by
  intro l
  induction l with
  | nil => intro i h; simp at h
  | cons a l ih =>
    intro i h
    cases i with
    | zero => simp [totalLen, List.eraseIdx]; omega
    | succ n =>
      have hn : n < l.length := by simpa using h
      have := ih n hn
      simp only [totalLen, List.eraseIdx, List.map_cons, List.sum_cons,
        List.get_cons_succ] at *
      omega

theorem totalLen_set {α : Type} :
    ∀ (l : List (List α)) (i : Nat) (h : i < l.length) (xs : List α),
      totalLen (l.set i xs) + (l.get ⟨i, h⟩).length = totalLen l + xs.length := by
  intro l
  induction l with
  | nil => intro i h; simp at h
  | cons a l ih =>
    intro i h xs
    cases i with
    | zero => simp [totalLen, List.set]; omega
    | succ n =>
      have hn : n < l.length := by simpa using h
      have := ih n hn xs
      simp only [totalLen, List.set, List.map_cons, List.sum_cons,
        List.get_cons_succ] at *
      omega

theorem chainIterGo_ok {α : Type} (r : Nat → Nat) :
    ∀ (N k : Nat) (avail : List (List α)), totalLen avail + avail.length ≤ N →
      avail ≠ [] →
      ∃ ys, chainIterGo r k avail = .ok ys ∧ ys.length = totalLen avail := by
  intro N
  induction N with
  | zero =>
    intro k avail hle hne
    cases avail with
    | nil => exact absurd rfl hne
    | cons a t => simp [totalLen] at hle
  | succ N ih =>
    intro k avail hle hne
    have hlen0 : ¬ avail.length = 0 := fun h0 => hne (List.length_eq_zero.1 h0)
    have hidx : r k % avail.length < avail.length :=
      Nat.mod_lt _ (Nat.pos_of_ne_zero hlen0)
    rw [chainIterGo, dif_neg hlen0]
    by_cases hcur : (avail.get ⟨r k % avail.length, hidx⟩).length = 0
    · rw [dif_pos hcur]
      have h2 := totalLen_eraseIdx avail (r k % avail.length) hidx
      rw [hcur] at h2
      have hlen1 : (avail.eraseIdx (r k % avail.length)).length + 1 = avail.length :=
        List.length_eraseIdx_add_one hidx
      by_cases h0 : (avail.eraseIdx (r k % avail.length)).length = 0
      · rw [if_pos h0]
        refine ⟨[], rfl, ?_⟩
        have h3 : avail.eraseIdx (r k % avail.length) = [] := List.length_eq_zero.1 h0
        rw [h3] at h2
        have h5 : totalLen ([] : List (List α)) = 0 := rfl
        simp only [List.length_nil]
        omega
      · rw [if_neg h0]
        obtain ⟨ys, hok, hys⟩ := ih (k + 1) (avail.eraseIdx (r k % avail.length))
          (by omega) (fun hnil => h0 (by rw [hnil]; rfl))
        exact ⟨ys, hok, by omega⟩
    · rw [dif_neg hcur]
      have h2 := totalLen_set avail (r k % avail.length) hidx
        (avail.get ⟨r k % avail.length, hidx⟩).tail
      have h3 : (avail.set (r k % avail.length)
          (avail.get ⟨r k % avail.length, hidx⟩).tail).length = avail.length :=
        List.length_set avail _ _
      have h4 : (avail.get ⟨r k % avail.length, hidx⟩).tail.length
          = (avail.get ⟨r k % avail.length, hidx⟩).length - 1 := List.length_tail _
      have hne2 : avail.set (r k % avail.length)
          (avail.get ⟨r k % avail.length, hidx⟩).tail ≠ [] := by
        intro hnil
        rw [hnil] at h3
        exact hlen0 h3.symm
      obtain ⟨ys, hok, hys⟩ := ih (k + 1) (avail.set (r k % avail.length)
        (avail.get ⟨r k % avail.length, hidx⟩).tail) (by omega) hne2
      rw [hok]
      refine ⟨_ :: ys, rfl, ?_⟩
      simp only [List.length_cons]
      omega

theorem totalLen_map_items {α : Type} (loaders : List (Source α)) :
    totalLen (loaders.map (·.items)) = (loaders.map (fun s => s.items.length)).sum := by
  rw [totalLen, List.map_map]
  rfl

/-- C6: for every collection of at least one finite source (sources that
are empty at the start included) and every random draw sequence, one full
iteration of the stream merger terminates normally — the live list shrinks
exactly on exhaustion signals and the loop returns exactly when the live
count reaches zero — and yields exactly the sum of the sources' item
counts. -/
theorem chain_iteration_exhausts {α : Type} (r : Nat → Nat)
    (loaders : List (Source α)) (hne : loaders ≠ []) :
    ∃ ys, (DataLoaderChain.init loaders).iterRun r = .ok ys ∧
      ys.length = (loaders.map (fun s => s.items.length)).sum := by
  have hne2 : loaders.map (·.items) ≠ [] := by
    intro h
    exact hne (List.map_eq_nil_iff.1 h)
  obtain ⟨ys, hok, hys⟩ := chainIterGo_ok r
    (totalLen (loaders.map (·.items)) + (loaders.map (·.items)).length) 0
    (loaders.map (·.items)) le_rfl hne2
  exact ⟨ys, hok, by rw [hys, totalLen_map_items]⟩


/-- C6 (witness): three sources of declared lengths 3, 5, 0 (one empty at
the start): a full iteration run terminates with exactly 8 items. -/
theorem chain_iteration_exhausts_witness :
    ∃ ys, (DataLoaderChain.init loadersC6).iterRun (fun k => k) = .ok ys ∧
      ys.length = (loadersC6.map (fun s => s.items.length)).sum :=
  chain_iteration_exhausts (fun k => k) loadersC6 (by decide)

/-- C8: the merger's declared length is the sum of the sources' declared
lengths, computed once by the `loaders` setter at construction; it plays
no role in iteration, which yields the sources' actual items — so the two
can disagree and neither is checked against the other. -/
theorem chain_len_declared {α : Type} (loaders : List (Source α)) (r : Nat → Nat)
    (hne : loaders ≠ []) :
    (DataLoaderChain.init loaders).len = (loaders.map (fun s => s.declaredLen)).sum ∧
    ∃ ys, (DataLoaderChain.init loaders).iterRun r = .ok ys ∧
      ys.length = (loaders.map (fun s => s.items.length)).sum := by
  refine ⟨rfl, ?_⟩
  have hne2 : loaders.map (·.items) ≠ [] := by
    intro h
    exact hne (List.map_eq_nil_iff.1 h)
  obtain ⟨ys, hok, hys⟩ := chainIterGo_ok r
    (totalLen (loaders.map (·.items)) + (loaders.map (·.items)).length) 0
    (loaders.map (·.items)) le_rfl hne2
  exact ⟨ys, hok, by rw [hys, totalLen_map_items]⟩


/-- C8 (witness): sources with declared lengths 3 and 4 but only 2 actual
items in total: the declared length is 7 while iteration yields 2 items. -/
theorem chain_len_declared_witness :
    (DataLoaderChain.init loadersC8).len = (loadersC8.map (fun s => s.declaredLen)).sum ∧
    ∃ ys, (DataLoaderChain.init loadersC8).iterRun (fun k => k + 1) = .ok ys ∧
      ys.length = (loadersC8.map (fun s => s.items.length)).sum :=
  chain_len_declared loadersC8 (fun k => k + 1) (by decide)

/-- C9: indexed access into the stream merger raises `NotImplementedError`
for every chain state and every position; being a pure function of the
chain, it yields no item and returns no updated merger state. -/
theorem chain_getitem_not_implemented {α : Type} (c : DataLoaderChain α) (item : Nat) :
    c.getitem item = .error .notImplementedError := rfl

/-- C10: a merger constructed over zero sources has declared length 0, yet
iterating it does not produce an empty stream: the first randrange draw is
over an empty live list and raises `ValueError` instead of terminating
normally. -/
theorem chain_empty_sources_raises {α : Type} (r : Nat → Nat) :
    (DataLoaderChain.init ([] : List (Source α))).len = 0 ∧
    (DataLoaderChain.init ([] : List (Source α))).iterRun r = .error .valueError := by
  refine ⟨rfl, ?_⟩
  rw [DataLoaderChain.iterRun]
  rw [chainIterGo]
  rfl
